import Mathlib

/-!
Verification development for the HumanCount video-surveillance demo
(`main.py`, `subtract.py`).  The per-frame orchestration loop of `App.start`,
the heatmap routines `draw_heatmap` / `darken_heatmap`, the background-contour
exclusion loop of `App.do_object_detection`, the alarm section, and the
background-reassignment behaviour of the MOG2 toggle are embedded shallowly
below.  Helper modules `utils.py` and `contours.py` are imported by `main.py`
but are not part of the sources under verification; where a fact depends on
them, the relevant function is modelled from the specification and marked as
such in its doc comment.  8-bit pixels are modelled as natural numbers with
explicit saturation, and the fixed-point weighted sums of `cv2.addWeighted`
are modelled over the rationals with rounding to the nearest integer.
-/

/-- One grayscale raster: a spatial size together with per-pixel values
(row index first, then column index).  Models the numpy arrays held in
`App.frame`, `App.gray`, `App.background` and `App.heatmap`. -/
structure Raster where
  width : ℕ
  height : ℕ
  data : ℕ → ℕ → ℕ

/-- One bounding box `(x, y, w, h)` in pixel coordinates, as produced by the
detectors in `main.py`. -/
structure Box where
  x : ℕ
  y : ℕ
  w : ℕ
  h : ℕ

/-- Whether pixel column `col`, row `row` lies inside the sub-image
`heatmap[y : y + h, x : x + w]` selected in `App.draw_heatmap`. -/
def inBox (b : Box) (col row : ℕ) : Bool :=
  decide (b.x ≤ col) && decide (col < b.x + b.w) &&
    decide (b.y ≤ row) && decide (row < b.y + b.h)

/-- Embedding of `cv2.addWeighted` at one 8-bit pixel: the weighted sum
`alpha * p + beta * q + gamma` is computed exactly (over ℚ), rounded to the
nearest integer, and saturated into the range [0, 255] (`Int.toNat` clips the
negative side, `min 255` the positive side), as `saturate_cast<uchar>` does. -/
def addWeightedPx (p : ℕ) (alpha : ℚ) (q : ℕ) (beta : ℚ) (gamma : ℚ) : ℕ :=
  min 255 (round (alpha * (p : ℚ) + beta * (q : ℚ) + gamma)).toNat

/-- One pixel of the brighten step of `App.draw_heatmap` (line 88 of
`main.py`): `cv2.addWeighted(sub_img, 1, white_rect, 0.05, 0)` where the
white rectangle pixel is 255. -/
def brightenPx (p : ℕ) : ℕ :=
  addWeightedPx p 1 255 (1/20) 0

/-- One pixel of `App.darken_heatmap` (line 96 of `main.py`):
`cv2.addWeighted(self.heatmap, 0.9, black_overlay, 0.5, 0)` where the black
overlay pixel is 0. -/
def darkenPx (p : ℕ) : ℕ :=
  addWeightedPx p (9/10) 0 (1/2) 0

/-- `App.draw_heatmap` (lines 80-89 of `main.py`): for each box in turn,
replace the sub-image under the box by its brightened version; pixels outside
the box are untouched, and later boxes see the writes of earlier ones. -/
def draw_heatmap (hm : Raster) (hog_boxes : List Box) : Raster :=
  hog_boxes.foldl
    (fun h b =>
      ⟨h.width, h.height,
        fun r c => if inBox b c r then brightenPx (h.data r c) else h.data r c⟩)
    hm

/-- `App.darken_heatmap` (lines 91-96 of `main.py`): every pixel of the
heatmap is darkened. -/
def darken_heatmap (hm : Raster) : Raster :=
  ⟨hm.width, hm.height, fun r c => darkenPx (hm.data r c)⟩

/-- The heatmap update of one loop iteration (lines 160-162 of `main.py`):
when `frame_counter % 10 == 0` the heatmap is darkened and then brightened
under the current motion boxes; otherwise the loop body leaves the heatmap
raster untouched (the only other use, line 166, is a read). -/
def heatmapStep (frame_counter : ℕ) (small_boxes : List Box) (hm : Raster) : Raster :=
  if frame_counter % 10 = 0 then draw_heatmap (darken_heatmap hm) small_boxes else hm

/-- One heatmap-mutating operation: a whole-raster darken or a box-overlay
brighten pass, the two operations applied by lines 161-162 of `main.py`. -/
inductive HeatmapOp where
  | darken : HeatmapOp
  | draw : List Box → HeatmapOp

/-- Apply one heatmap operation. -/
def applyHeatmapOp (hm : Raster) : HeatmapOp → Raster
  | .darken => darken_heatmap hm
  | .draw boxes => draw_heatmap hm boxes

/-- Apply a sequence of darken / brighten operations in order. -/
def applyHeatmapOps (hm : Raster) (ops : List HeatmapOp) : Raster :=
  ops.foldl applyHeatmapOp hm

/-- The darken step as the specification words it: scaling each pixel by 0.9,
with rounding to the nearest integer. -/
def specDarkenPx (p : ℕ) : ℕ :=
  (round ((9/10 : ℚ) * (p : ℚ))).toNat

/-- The brighten step as the specification words it: adding the constant
`0.05 * 255` (rounded to the nearest integer) to the pixel, saturating
at 255. -/
def specBrightenPx (p : ℕ) : ℕ :=
  min 255 (p + (round ((1/20 : ℚ) * (255 : ℚ))).toNat)

/-- A contour, as it enters the exclusion loop of `App.do_object_detection`:
the flattened sequence of integer entries of the contour's point array
(point coordinates are non-negative machine integers). -/
abbrev Contour := List ℕ

/-- Line 72 of `main.py`, `np.any(np.isin(contour, diff_contours))`:
whether any entry of `contour` occurs among the entries of the contours in
`diff_contours` (`np.isin` tests elementwise value membership, `np.any`
collapses the result). -/
def npAnyIsin (contour : Contour) (diff : List Contour) : Bool :=
  contour.any (fun v => diff.any (fun c => c.contains v))

/-- The message carried by the `IndexError` that `np.delete` raises on an
out-of-range index. -/
def indexErrorMessage : String :=
  "IndexError: index out of bounds"

/-- `np.delete(arr, idxs)` (line 74 of `main.py`): returns a NEW array with
the positions listed in `idxs` removed, raising `IndexError` when some index
is out of range; the input array itself is never modified. -/
def npDelete (arr : List Contour) (idxs : List ℕ) : Except String (List Contour) :=
  if idxs.all (fun i => decide (i < arr.length)) then
    .ok ((arr.enum.filter (fun p => !(idxs.contains p.1))).map (fun p => p.2))
  else
    .error indexErrorMessage

/-- Whether `np.delete(arr, idxs)` raises. -/
def npDeleteFails (arr : List Contour) (idxs : List ℕ) : Bool :=
  match npDelete arr idxs with
  | .ok _ => false
  | .error _ => true

/-- Lines 70-77 of `main.py`: for each background contour sharing a value
with the difference-contour array, `np.delete` is called — its result is not
assigned to anything — and a raised `IndexError` is caught and printed.
Returns the final contour array together with the printed log lines. -/
def removeCommonContours (contours_background : List Contour)
    (diff_contours : List Contour) : List Contour × List String :=
  contours_background.foldl
    (fun acc contour =>
      if npAnyIsin contour acc.1 then
        match npDelete acc.1 contour with
        | .ok _ => acc
        | .error e => (acc.1, acc.2 ++ [e])
      else acc)
    (diff_contours, [])

/-- One console message printed by the alarm section of `App.start`
(lines 144-158 of `main.py`), with the numbers it interpolates. -/
inductive AlarmMsg where
  | countAlarm (current maximumAllowed : ℕ)
  | distanceAlarm (found minimumAllowed : ℚ)
deriving DecidableEq

/-- Whether a message is the people-count alarm line. -/
def AlarmMsg.isCount : AlarmMsg → Bool
  | .countAlarm _ _ => true
  | .distanceAlarm _ _ => false

/-- Whether a message is the people-distance alarm line. -/
def AlarmMsg.isDistance : AlarmMsg → Bool
  | .countAlarm _ _ => false
  | .distanceAlarm _ _ => true

/-- The alarm section of one loop iteration (lines 144-158 of `main.py`).
The count alarm fires when its flag is unset and `len(hog_boxes)` exceeds
`max_people_allowed`; the distance alarm is evaluated only when its flag is
unset and `len(distances) > 0`, in which case Python's `min` is applied to
the non-empty list (`minimum?` returning `none` is where `min` would raise
`ValueError`; the guard makes that branch unreachable).  Returns the list of
messages printed for the frame, in program order. -/
def alarmSection (no_alarm_count no_alarm_distance : Bool)
    (hog_box_count max_people_allowed : ℕ)
    (distances : List ℚ) (min_distance_allowed : ℚ) :
    Except String (List AlarmMsg) :=
  let countMsgs : List AlarmMsg :=
    if !no_alarm_count then
      if hog_box_count > max_people_allowed then
        [.countAlarm hog_box_count max_people_allowed]
      else []
    else []
  if !no_alarm_distance && decide (distances.length > 0) then
    match distances.min? with
    | some min_distance =>
        .ok (countMsgs ++
          (if min_distance < min_distance_allowed then
            [.distanceAlarm min_distance min_distance_allowed]
          else []))
    | none => .error "ValueError: min() arg is an empty sequence"
  else
    .ok countMsgs

/-- The linear pixel-to-angle map of the distance estimator: row `y` of the
frame (y grows downward, so `y = frame_height` is the bottom row, near the
camera at the larger tilt angle, and `y = 0` the top row at the smaller)
maps linearly onto `[lower_angle, upper_angle]`.  Angles are in radians. -/
noncomputable def box_elevation_angle (lower_angle upper_angle frame_height y : ℝ) : ℝ :=
  lower_angle + (upper_angle - lower_angle) * (y / frame_height)

/-- Modelled from the spec: `utils.get_distance_to_camera` is called by
`main.py` but `utils.py` is not among the sources.  Per the specification,
the box's vertical pixel position maps linearly to an elevation angle between
the two configured extremes and the distance is `height / tan(angle)`, with
the boundary guarded so that a vanishing tangent yields 0 rather than a
division by zero. -/
noncomputable def get_distance_to_camera
    (camera_height lower_angle upper_angle frame_height y : ℝ) : ℝ :=
  let angle := box_elevation_angle lower_angle upper_angle frame_height y
  if Real.tan angle = 0 then 0 else camera_height / Real.tan angle

/-- `cv2.resize(r, (w, h))` (external collaborator): produces a raster of the
requested size; the resampling itself is modelled as nearest-neighbour
sampling of the source, though only the output size matters below. -/
def resize (r : Raster) (w h : ℕ) : Raster :=
  ⟨w, h, fun i j => r.data (i * r.height / h) (j * r.width / w)⟩

/-- `cv2.cvtColor(r, COLOR_BGR2GRAY)` (external collaborator): a per-pixel
luminance map on a raster of unchanged size; the map itself is abstracted as
the parameter `luma` (rasters are single-channel in this model). -/
def cvtColorGray (luma : ℕ → ℕ) (r : Raster) : Raster :=
  ⟨r.width, r.height, fun i j => luma (r.data i j)⟩

/-- `BackgroundSubtractor.work` (`subtract.py`, lines 10-11) wraps the
external `cv2.createBackgroundSubtractorMOG2(detectShadows=True,
history=100).apply`: it returns a foreground-mask raster of the same spatial
size as the input frame; the mask's pixel content (which depends on the
subtractor's hidden history) is abstracted as the parameter `mask`. -/
def subtractor_work (mask : ℕ → ℕ → ℕ) (frame : Raster) : Raster :=
  ⟨frame.width, frame.height, mask⟩

/-- `cv2.absdiff` (line 58 of `main.py`): pointwise absolute difference. -/
def absdiff (a b : Raster) : Raster :=
  ⟨a.width, a.height,
    fun i j => max (a.data i j) (b.data i j) - min (a.data i j) (b.data i j)⟩

/-- The raster-valued fields of `App` that the main loop reads and writes:
current color frame, its grayscale derivative, the background model and the
heatmap. -/
structure LoopState where
  frame : Raster
  gray : Raster
  background : Raster
  heatmap : Raster

/-- The per-iteration inputs that come from outside the loop state: the raw
captured frame (of arbitrary size, before the resize), the opaque MOG2 mask
pixels for this call, and the motion boxes computed for the frame. -/
structure IterInput where
  rawFrame : Raster
  mogMask : ℕ → ℕ → ℕ
  small_boxes : List Box

/-- The raster effects of one iteration of `App.start`'s loop (lines
104-162 of `main.py`): the frame is resized to 350×300, converted to gray;
`do_object_detection` reassigns the background from the subtractor exactly
when `use_mog2` is set (lines 55-56); the heatmap is updated on every tenth
frame counter. -/
def stepRasters (use_mog2 : Bool) (luma : ℕ → ℕ) (inp : IterInput)
    (frame_counter : ℕ) (s : LoopState) : LoopState :=
  let frame := resize inp.rawFrame 350 300
  let gray := cvtColorGray luma frame
  let background := if use_mog2 then subtractor_work inp.mogMask gray else s.background
  let heatmap := heatmapStep frame_counter inp.small_boxes s.heatmap
  ⟨frame, gray, background, heatmap⟩

/-- Run the loop over a list of per-iteration inputs, threading the frame
counter exactly as `App.start` does (starts at 0, incremented once per
iteration). -/
def runRastersFrom (use_mog2 : Bool) (luma : ℕ → ℕ) (frame_counter : ℕ)
    (inputs : List IterInput) (s : LoopState) : LoopState :=
  match inputs with
  | [] => s
  | inp :: rest =>
      runRastersFrom use_mog2 luma (frame_counter + 1) rest
        (stepRasters use_mog2 luma inp frame_counter s)

/-- Run the loop from frame counter 0, as `App.start` does. -/
def runRasters (use_mog2 : Bool) (luma : ℕ → ℕ) (inputs : List IterInput)
    (s : LoopState) : LoopState :=
  runRastersFrom use_mog2 luma 0 inputs s

/-- `App.__init__` (lines 26-39 of `main.py`): the still background is
converted to gray and resized to 350×300, and the heatmap is
`np.zeros_like(self.background)`.  The frame and gray holders start as
`None` in the source; they are initialized here to the background raster,
which has the same 350×300 size, since both are overwritten at the top of
every iteration before any use. -/
def initState (luma : ℕ → ℕ) (background_image : Raster) : LoopState :=
  let bg := resize (cvtColorGray luma background_image) 350 300
  ⟨bg, bg, bg, ⟨bg.width, bg.height, fun _ _ => 0⟩⟩

/-- A raster has the fixed 350×300 spatial resolution of the pipeline. -/
def goodDims (r : Raster) : Prop :=
  r.width = 350 ∧ r.height = 300

/-- All four raster fields of the loop state are 350×300. -/
def stateGood (s : LoopState) : Prop :=
  goodDims s.frame ∧ goodDims s.gray ∧ goodDims s.background ∧ goodDims s.heatmap

/-- A concrete all-zero 350×300 raster, used to instantiate theorems. -/
def testRaster : Raster :=
  ⟨350, 300, fun _ _ => 0⟩

/-- A concrete iteration input, used to instantiate theorems. -/
def testInput : IterInput :=
  ⟨testRaster, fun _ _ => 0, []⟩

theorem npDelete_error_eq {arr : List Contour} {idxs : List ℕ} {e : String}
    (h : npDelete arr idxs = .error e) : e = indexErrorMessage := by
  unfold npDelete at h
  split at h
  · exact absurd h (by simp)
  · exact (Except.error.injEq _ _).mp h.symm

theorem removeCommonContours_foldl (bgs : List Contour) (diff : List Contour)
    (logs : List String) :
    bgs.foldl
      (fun acc contour =>
        if npAnyIsin contour acc.1 then
          match npDelete acc.1 contour with
          | .ok _ => acc
          | .error e => (acc.1, acc.2 ++ [e])
        else acc)
      (diff, logs) =
    (diff, logs ++
      (bgs.filter (fun c => npAnyIsin c diff && npDeleteFails diff c)).map
        (fun _ => indexErrorMessage)) := by
  induction bgs generalizing logs with
  | nil => simp
  | cons c bgs ih =>
    simp only [List.foldl_cons, List.filter_cons]
    rcases h1 : npAnyIsin c diff with _ | _
    · simp [h1, ih]
    · rcases h2 : npDelete diff c with e | v
      · have he : e = indexErrorMessage := npDelete_error_eq h2
        simp [h1, h2, ih, npDeleteFails, he]
      · simp [h1, h2, ih, npDeleteFails]

/-- C1: the background-contour exclusion loop does NOT remove a difference
contour that matches a baseline background contour.  With background contour
`[0]` and difference contour list `[[0]]`, the match condition holds, yet the
contour list returned to the small-box normalization still contains the
matching contour: `np.delete`'s result is discarded (line 74 of `main.py`),
so no box derived from it is ever suppressed. -/
theorem background_matching_contour_survives :
    npAnyIsin [0] [[0]] = true ∧ (removeCommonContours [[0]] [[0]]).1 = [[0]] :=
  ⟨rfl, rfl⟩

/-- C5: for every pair of contour lists, the exclusion step of
`do_object_detection` returns normally: the contour list is returned exactly
as it stood, and the only observable effect is one printed `IndexError` log
line per background contour whose `np.delete` call raised (the raise is
caught by the `try`/`except`; no exception escapes). -/
theorem contour_exclusion_total (bgs diff : List Contour) :
    removeCommonContours bgs diff =
      (diff,
        (bgs.filter (fun c => npAnyIsin c diff && npDeleteFails diff c)).map
          (fun _ => indexErrorMessage)) := by
  unfold removeCommonContours
  simpa using removeCommonContours_foldl bgs diff []

theorem addWeightedPx_le (p : ℕ) (alpha : ℚ) (q : ℕ) (beta gamma : ℚ) :
    addWeightedPx p alpha q beta gamma ≤ 255 :=
  min_le_left _ _

theorem brightenPx_eq (p : ℕ) : brightenPx p = min 255 (p + 13) := by
  unfold brightenPx addWeightedPx
  have harg : (1 : ℚ) * (p : ℚ) + (1/20) * ((255 : ℕ) : ℚ) + 0 = 51/4 + (p : ℚ) := by
    push_cast
    ring
  rw [harg, round_add_nat,
    show round ((51:ℚ)/4) = 13 by rw [round_eq]; norm_num [Int.floor_eq_iff]]
  omega

theorem darkenPx_eq_spec (p : ℕ) (hp : p ≤ 255) : darkenPx p = specDarkenPx p := by
  unfold darkenPx addWeightedPx specDarkenPx
  have harg : (9/10 : ℚ) * (p : ℚ) + (1/2) * ((0 : ℕ) : ℚ) + 0 = (9/10 : ℚ) * (p : ℚ) := by
    push_cast
    ring
  rw [harg]
  have hb : round ((9/10 : ℚ) * (p : ℚ)) ≤ 230 := by
    rw [round_eq]
    have hple : (p : ℚ) ≤ 255 := by exact_mod_cast hp
    calc ⌊(9/10 : ℚ) * (p : ℚ) + 1/2⌋ ≤ ⌊(230 : ℚ)⌋ := Int.floor_mono (by linarith)
      _ = 230 := by norm_num
  omega

theorem specBrightenPx_eq (p : ℕ) : specBrightenPx p = min 255 (p + 13) := by
  unfold specBrightenPx
  rw [show (1/20 : ℚ) * (255 : ℚ) = 51/4 by norm_num,
    show round ((51:ℚ)/4) = 13 by rw [round_eq]; norm_num [Int.floor_eq_iff]]
  rfl

theorem draw_heatmap_data_bound (boxes : List Box) (hm : Raster)
    (h : ∀ r c, hm.data r c ≤ 255) :
    ∀ r c, (draw_heatmap hm boxes).data r c ≤ 255 := by
  induction boxes generalizing hm with
  | nil => exact h
  | cons b bs ih =>
    refine ih _ ?_
    intro r c
    simp only
    split
    · exact addWeightedPx_le _ _ _ _ _
    · exact h r c

theorem applyHeatmapOps_bound (ops : List HeatmapOp) (hm : Raster)
    (h : ∀ r c, hm.data r c ≤ 255) :
    ∀ r c, (applyHeatmapOps hm ops).data r c ≤ 255 := by
  induction ops generalizing hm with
  | nil => exact h
  | cons op ops ih =>
    refine ih _ ?_
    cases op with
    | darken => exact fun r c => addWeightedPx_le _ _ _ _ _
    | draw boxes => exact draw_heatmap_data_bound boxes hm h

/-- C6: starting from a heatmap whose pixels all lie in [0, 255], every
sequence of darken and box-overlay brighten operations keeps every pixel in
[0, 255] (values are naturals, so 0 is a lower bound by construction); the
brighten step saturates at 255 — it equals `min 255 (p + 13)`, not a wrap
modulo 256 — and the darken step never exceeds 255. -/
theorem heatmap_pixels_stay_bounded (hm : Raster)
    (hbound : ∀ r c, hm.data r c ≤ 255) :
    (∀ ops r c, (applyHeatmapOps hm ops).data r c ≤ 255) ∧
      (∀ p, brightenPx p = min 255 (p + 13)) ∧ (∀ p, darkenPx p ≤ 255) :=
  ⟨fun ops => applyHeatmapOps_bound ops hm hbound, brightenPx_eq,
    fun _ => addWeightedPx_le _ _ _ _ _⟩

theorem heatmap_pixels_stay_bounded_witness :
    (∀ r c, testRaster.data r c ≤ 255) ∧
      ((∀ ops r c, (applyHeatmapOps testRaster ops).data r c ≤ 255) ∧
        (∀ p, brightenPx p = min 255 (p + 13)) ∧ (∀ p, darkenPx p ≤ 255)) :=
  ⟨fun _ _ => Nat.zero_le 255,
    heatmap_pixels_stay_bounded testRaster (fun _ _ => Nat.zero_le 255)⟩

/-- C7: at every pixel with value in [0, 255], the darken step (weighted add
of 0.9 times the heatmap and 0.5 times a black overlay) equals scaling the
pixel by 0.9 with rounding, and at every pixel under a motion box the
brighten step (blend toward white at weight 0.05) equals adding the rounded
constant 0.05 * 255 with saturation at 255. -/
theorem heatmap_blend_refinement (hm : Raster) (b : Box) (r c : ℕ)
    (hbound : hm.data r c ≤ 255) (hin : inBox b c r = true) :
    (darken_heatmap hm).data r c = specDarkenPx (hm.data r c) ∧
      (draw_heatmap hm [b]).data r c = specBrightenPx (hm.data r c) := by
  constructor
  · exact darkenPx_eq_spec _ hbound
  · simp only [draw_heatmap, List.foldl_cons, List.foldl_nil, hin, if_true]
    rw [brightenPx_eq, specBrightenPx_eq]

theorem heatmap_blend_refinement_witness :
    testRaster.data 5 5 ≤ 255 ∧ inBox ⟨0, 0, 10, 10⟩ 5 5 = true ∧
      ((darken_heatmap testRaster).data 5 5 = specDarkenPx (testRaster.data 5 5) ∧
        (draw_heatmap testRaster [⟨0, 0, 10, 10⟩]).data 5 5 =
          specBrightenPx (testRaster.data 5 5)) :=
  ⟨by decide, by decide,
    heatmap_blend_refinement testRaster ⟨0, 0, 10, 10⟩ 5 5 (by decide) (by decide)⟩

/-- C8: the loop body darkens and then brightens the heatmap exactly on
iterations whose frame counter is divisible by 10 (the first processed frame
has counter 0, and 0 % 10 = 0), and on every other iteration it leaves the
heatmap raster unchanged. -/
theorem heatmap_update_every_tenth_frame (frame_counter : ℕ)
    (small_boxes : List Box) (hm : Raster) :
    (frame_counter % 10 = 0 →
      heatmapStep frame_counter small_boxes hm =
        draw_heatmap (darken_heatmap hm) small_boxes) ∧
    (frame_counter % 10 ≠ 0 → heatmapStep frame_counter small_boxes hm = hm) := by
  constructor <;> intro h <;> simp [heatmapStep, h]

theorem heatmap_update_every_tenth_frame_witness :
    (0 % 10 = 0 ∧
      heatmapStep 0 [] testRaster = draw_heatmap (darken_heatmap testRaster) []) ∧
      (3 % 10 ≠ 0 ∧ heatmapStep 3 [] testRaster = testRaster) :=
  ⟨⟨by decide, (heatmap_update_every_tenth_frame 0 [] testRaster).1 (by decide)⟩,
    ⟨by decide, (heatmap_update_every_tenth_frame 3 [] testRaster).2 (by decide)⟩⟩

/-- C2 counterexample: with only `lower_angle < upper_angle` and a positive
camera height — as the claim is stated — the estimated distance need not be
positive: at `lower_angle = -π/4`, `upper_angle = π/4`, height 1, a box at
the top row (`y = 0`) gets angle `-π/4`, tangent `-1`, and distance `-1`. -/
theorem distance_negative_for_negative_lower_angle :
    -(Real.pi / 4) < Real.pi / 4 ∧ (0 : ℝ) < 1 ∧
      get_distance_to_camera 1 (-(Real.pi / 4)) (Real.pi / 4) 1 0 < 0 := by
  have hpi := Real.pi_pos
  refine ⟨by linarith, by norm_num, ?_⟩
  have hangle : box_elevation_angle (-(Real.pi / 4)) (Real.pi / 4) 1 0 = -(Real.pi / 4) := by
    unfold box_elevation_angle
    ring
  show (if Real.tan (box_elevation_angle (-(Real.pi / 4)) (Real.pi / 4) 1 0) = 0 then (0:ℝ)
      else 1 / Real.tan (box_elevation_angle (-(Real.pi / 4)) (Real.pi / 4) 1 0)) < 0
  rw [hangle, Real.tan_neg, Real.tan_pi_div_four]
  norm_num

/-- C2 (amended): for camera configurations with `0 < lower_angle <
upper_angle < π/2` and positive camera height, on a frame of positive pixel
height: the tangent at any in-frame row — including the exact bottom row
`y = frame_height` — is nonzero, so the guard never divides by zero; the
estimated distance is positive (and a real number, hence finite); and the
distance is strictly decreasing in the pixel row coordinate `y` (rows grow
downward, so boxes lower in the frame are strictly nearer). -/
theorem distance_positive_and_antitone
    (camera_height lower_angle upper_angle frame_height y y1 y2 : ℝ)
    (hh : 0 < camera_height) (hl : 0 < lower_angle)
    (hlu : lower_angle < upper_angle) (hu : upper_angle < Real.pi / 2)
    (hf : 0 < frame_height)
    (hy0 : 0 ≤ y) (hyF : y ≤ frame_height)
    (h10 : 0 ≤ y1) (h12 : y1 < y2) (h2F : y2 ≤ frame_height) :
    Real.tan (box_elevation_angle lower_angle upper_angle frame_height y) ≠ 0 ∧
      0 < get_distance_to_camera camera_height lower_angle upper_angle frame_height y ∧
      get_distance_to_camera camera_height lower_angle upper_angle frame_height y2 <
        get_distance_to_camera camera_height lower_angle upper_angle frame_height y1 := by
  have hrange : ∀ z, 0 ≤ z → z ≤ frame_height →
      lower_angle ≤ box_elevation_angle lower_angle upper_angle frame_height z ∧
        box_elevation_angle lower_angle upper_angle frame_height z ≤ upper_angle := by
    intro z hz0 hzF
    unfold box_elevation_angle
    constructor
    · nlinarith [mul_nonneg (le_of_lt (sub_pos.mpr hlu)) (div_nonneg hz0 (le_of_lt hf))]
    · have hzle : z / frame_height ≤ 1 := (div_le_one hf).mpr hzF
      nlinarith [sub_pos.mpr hlu]
  have htanpos : ∀ z, 0 ≤ z → z ≤ frame_height →
      0 < Real.tan (box_elevation_angle lower_angle upper_angle frame_height z) := by
    intro z hz0 hzF
    obtain ⟨ha, hb⟩ := hrange z hz0 hzF
    exact Real.tan_pos_of_pos_of_lt_pi_div_two (lt_of_lt_of_le hl ha) (lt_of_le_of_lt hb hu)
  have hdist : ∀ z, 0 ≤ z → z ≤ frame_height →
      get_distance_to_camera camera_height lower_angle upper_angle frame_height z =
        camera_height /
          Real.tan (box_elevation_angle lower_angle upper_angle frame_height z) := by
    intro z hz0 hzF
    show (if Real.tan (box_elevation_angle lower_angle upper_angle frame_height z) = 0
        then (0:ℝ)
        else camera_height /
          Real.tan (box_elevation_angle lower_angle upper_angle frame_height z)) = _
    rw [if_neg (ne_of_gt (htanpos z hz0 hzF))]
  refine ⟨ne_of_gt (htanpos y hy0 hyF), ?_, ?_⟩
  · rw [hdist y hy0 hyF]
    exact div_pos hh (htanpos y hy0 hyF)
  · have h20 : 0 ≤ y2 := le_trans h10 (le_of_lt h12)
    have h1F : y1 ≤ frame_height := le_trans (le_of_lt h12) h2F
    have ha12 : box_elevation_angle lower_angle upper_angle frame_height y1 <
        box_elevation_angle lower_angle upper_angle frame_height y2 := by
      unfold box_elevation_angle
      have hdivs : y1 / frame_height < y2 / frame_height :=
        (div_lt_div_iff_of_pos_right hf).mpr h12
      nlinarith [sub_pos.mpr hlu]
    have htan12 : Real.tan (box_elevation_angle lower_angle upper_angle frame_height y1) <
        Real.tan (box_elevation_angle lower_angle upper_angle frame_height y2) := by
      refine Real.tan_lt_tan_of_nonneg_of_lt_pi_div_two ?_ ?_ ha12
      · exact le_of_lt (lt_of_lt_of_le hl (hrange y1 h10 h1F).1)
      · exact lt_of_le_of_lt (hrange y2 h20 h2F).2 hu
    rw [hdist y1 h10 h1F, hdist y2 h20 h2F]
    exact div_lt_div_of_pos_left hh (htanpos y1 h10 h1F) htan12

theorem distance_positive_and_antitone_witness :
    0 < (1:ℝ) ∧ 0 < Real.pi / 6 ∧ Real.pi / 6 < Real.pi / 4 ∧
      Real.pi / 4 < Real.pi / 2 ∧ 0 < (1:ℝ) ∧ (0:ℝ) ≤ 1 ∧ (1:ℝ) ≤ 1 ∧
      (0:ℝ) ≤ 0 ∧ (0:ℝ) < 1 ∧ (1:ℝ) ≤ 1 ∧
      (Real.tan (box_elevation_angle (Real.pi / 6) (Real.pi / 4) 1 1) ≠ 0 ∧
        0 < get_distance_to_camera 1 (Real.pi / 6) (Real.pi / 4) 1 1 ∧
        get_distance_to_camera 1 (Real.pi / 6) (Real.pi / 4) 1 1 <
          get_distance_to_camera 1 (Real.pi / 6) (Real.pi / 4) 1 0) :=
  have hpi := Real.pi_pos
  ⟨by norm_num, by positivity, by linarith, by linarith, by norm_num, by norm_num,
    by norm_num, by norm_num, by norm_num, by norm_num,
    distance_positive_and_antitone 1 (Real.pi / 6) (Real.pi / 4) 1 1 0 1
      (by norm_num) (by positivity) (by linarith) (by linarith) (by norm_num)
      (by norm_num) (by norm_num) (by norm_num) (by norm_num) (by norm_num)⟩

/-- C3: for every flag setting, people count, threshold and distance list,
the alarm section returns a message list in which the count-alarm line
appears exactly once when the count flag is unset and the people count
strictly exceeds the maximum, and zero times otherwise — in particular at
most once per frame, and never when the flag is set. -/
theorem count_alarm_exactly_once (no_alarm_count no_alarm_distance : Bool)
    (hog_box_count max_people_allowed : ℕ)
    (distances : List ℚ) (min_distance_allowed : ℚ) :
    ∃ msgs,
      alarmSection no_alarm_count no_alarm_distance hog_box_count max_people_allowed
          distances min_distance_allowed = .ok msgs ∧
        (msgs.countP (fun m => m.isCount) = 1 ↔
          no_alarm_count = false ∧ hog_box_count > max_people_allowed) ∧
        msgs.countP (fun m => m.isCount) ≤ 1 ∧
        (no_alarm_count = true → msgs.countP (fun m => m.isCount) = 0) := by
  unfold alarmSection
  cases no_alarm_count <;> cases no_alarm_distance <;>
    rcases distances with _ | ⟨d, ds⟩ <;>
    simp [List.min?_cons, AlarmMsg.isCount] <;>
    split_ifs <;>
    simp_all [List.countP_cons, List.countP_append, AlarmMsg.isCount]

theorem count_alarm_exactly_once_witness :
    (∃ msgs,
      alarmSection false false 5 2 [] 1 = .ok msgs ∧
        (msgs.countP (fun m => m.isCount) = 1 ↔ false = false ∧ 5 > 2) ∧
        msgs.countP (fun m => m.isCount) ≤ 1 ∧
        (false = true → msgs.countP (fun m => m.isCount) = 0)) ∧
      alarmSection false false 5 2 [] 1 = .ok [.countAlarm 5 2] :=
  ⟨count_alarm_exactly_once false false 5 2 [] 1, rfl⟩

/-- C4: for every flag setting and every distance list, the alarm section
returns normally (it is never the error that `min` of an empty sequence
would raise — with zero distances the distance alarm is skipped), and the
distance-alarm line appears exactly once when the distance flag is unset and
the minimum of the (necessarily non-empty) distance list is strictly below
the configured minimum, and zero times otherwise. -/
theorem distance_alarm_guarded (no_alarm_count no_alarm_distance : Bool)
    (hog_box_count max_people_allowed : ℕ)
    (distances : List ℚ) (min_distance_allowed : ℚ) :
    ∃ msgs,
      alarmSection no_alarm_count no_alarm_distance hog_box_count max_people_allowed
          distances min_distance_allowed = .ok msgs ∧
        (msgs.countP (fun m => m.isDistance) = 1 ↔
          no_alarm_distance = false ∧
            ∃ m, distances.min? = some m ∧ m < min_distance_allowed) ∧
        msgs.countP (fun m => m.isDistance) ≤ 1 ∧
        (distances = [] → msgs.countP (fun m => m.isDistance) = 0) := by
  unfold alarmSection
  cases no_alarm_count <;> cases no_alarm_distance <;>
    rcases distances with _ | ⟨d, ds⟩ <;>
    simp [List.min?_cons, AlarmMsg.isDistance] <;>
    split_ifs <;>
    simp_all [List.countP_cons, List.countP_append, AlarmMsg.isDistance]

theorem distance_alarm_guarded_witness :
    (∃ msgs,
      alarmSection false false 0 5 [3/2, 1/2] 1 = .ok msgs ∧
        (msgs.countP (fun m => m.isDistance) = 1 ↔
          false = false ∧ ∃ m, ([3/2, 1/2] : List ℚ).min? = some m ∧ m < 1) ∧
        msgs.countP (fun m => m.isDistance) ≤ 1 ∧
        (([3/2, 1/2] : List ℚ) = [] → msgs.countP (fun m => m.isDistance) = 0)) ∧
      alarmSection false false 0 5 [3/2, 1/2] 1 = .ok [.distanceAlarm (1/2) 1] ∧
      alarmSection false false 0 5 [] 1 = .ok [] :=
  ⟨distance_alarm_guarded false false 0 5 [3/2, 1/2] 1,
    by simp [alarmSection, List.min?_cons]; norm_num, rfl⟩

theorem draw_heatmap_dims (boxes : List Box) (hm : Raster) :
    (draw_heatmap hm boxes).width = hm.width ∧
      (draw_heatmap hm boxes).height = hm.height := by
  induction boxes generalizing hm with
  | nil => exact ⟨rfl, rfl⟩
  | cons b bs ih => exact ih _

theorem heatmapStep_dims (c : ℕ) (boxes : List Box) (hm : Raster) :
    (heatmapStep c boxes hm).width = hm.width ∧
      (heatmapStep c boxes hm).height = hm.height := by
  unfold heatmapStep
  split
  · exact draw_heatmap_dims boxes (darken_heatmap hm)
  · exact ⟨rfl, rfl⟩

theorem stepRasters_good (u : Bool) (luma : ℕ → ℕ) (inp : IterInput) (c : ℕ)
    (s : LoopState) (h : stateGood s) : stateGood (stepRasters u luma inp c s) := by
  obtain ⟨hf, hg, hb, hh⟩ := h
  refine ⟨⟨rfl, rfl⟩, ⟨rfl, rfl⟩, ?_, ?_⟩
  · show goodDims (if u then _ else s.background)
    cases u
    · exact hb
    · exact ⟨rfl, rfl⟩
  · obtain ⟨hw, hht⟩ := heatmapStep_dims c inp.small_boxes s.heatmap
    exact ⟨hw.trans hh.1, hht.trans hh.2⟩

theorem runRastersFrom_good (u : Bool) (luma : ℕ → ℕ) (inputs : List IterInput) :
    ∀ c s, stateGood s → stateGood (runRastersFrom u luma c inputs s) := by
  induction inputs with
  | nil => exact fun c s h => h
  | cons inp rest ih =>
    exact fun c s h => ih _ _ (stepRasters_good u luma inp c s h)

/-- C9: starting from the initial state of `App.__init__` (background image
converted to gray and resized to 350×300, heatmap zeroed at that size), after
any number of loop iterations over any captured frames, MOG2 masks and motion
boxes, and whether or not MOG2 is enabled, the current frame, its grayscale
derivative, the background model and the heatmap all have spatial resolution
350×300; since the run length is arbitrary, the invariant holds at every
iteration of every run. -/
theorem resolution_invariant_holds (use_mog2 : Bool) (luma : ℕ → ℕ)
    (background_image : Raster) (inputs : List IterInput) :
    stateGood (runRasters use_mog2 luma inputs (initState luma background_image)) :=
  runRastersFrom_good use_mog2 luma inputs 0 _
    ⟨⟨rfl, rfl⟩, ⟨rfl, rfl⟩, ⟨rfl, rfl⟩, ⟨rfl, rfl⟩⟩

theorem runRastersFrom_bg_false (luma : ℕ → ℕ) (inputs : List IterInput) :
    ∀ c s, (runRastersFrom false luma c inputs s).background = s.background := by
  induction inputs with
  | nil => exact fun c s => rfl
  | cons inp rest ih =>
    intro c s
    exact (ih _ _).trans rfl

theorem runRastersFrom_bg_congr (luma : ℕ → ℕ) (inputs : List IterInput) :
    ∀ c s1 s2, s1.background = s2.background →
      (runRastersFrom true luma c inputs s1).background =
        (runRastersFrom true luma c inputs s2).background := by
  induction inputs with
  | nil => exact fun c s1 s2 h => h
  | cons inp rest ih =>
    intro c s1 s2 h
    exact ih _ _ _ rfl

/-- C10: with MOG2 enabled, one call to `do_object_detection` reassigns the
background to the subtractor's output for the frame's grayscale image,
whatever the background held before; consequently on any non-empty run the
final background is independent of the initial (static) background, which is
permanently discarded after the first frame.  With MOG2 disabled the loop
never reassigns the background. -/
theorem background_one_way_switch (luma : ℕ → ℕ) (inp : IterInput) (c : ℕ)
    (s s1 s2 : LoopState) (inputs : List IterInput) :
    (stepRasters true luma inp c s).background =
        subtractor_work inp.mogMask (cvtColorGray luma (resize inp.rawFrame 350 300)) ∧
      (inputs ≠ [] →
        (runRasters true luma inputs s1).background =
          (runRasters true luma inputs s2).background) ∧
      (runRasters false luma inputs s).background = s.background := by
  refine ⟨rfl, ?_, runRastersFrom_bg_false luma inputs 0 s⟩
  intro hne
  match inputs with
  | [] => exact absurd rfl hne
  | inp₀ :: rest => exact runRastersFrom_bg_congr luma rest 1 _ _ rfl

theorem background_one_way_switch_witness :
    ([testInput] ≠ []) ∧
      (runRasters true id [testInput] (initState id testRaster)).background =
        (runRasters true id [testInput]
          ⟨testRaster, testRaster, testRaster, testRaster⟩).background :=
  ⟨by simp,
    (background_one_way_switch id testInput 0 (initState id testRaster)
        (initState id testRaster) ⟨testRaster, testRaster, testRaster, testRaster⟩
        [testInput]).2.1 (by simp)⟩
